import Mathlib

/-!
Shallow embedding of `configurable-http-proxy-redis-backend`:
  - `src/lib/cluster.js` (cluster connection-string parsing), and
  - `src/lib/index.js` (`ConfigurableProxyRedisStorage`: path normalization,
    ancestor key enumeration, and the CRUD/resolve operations over one redis
    hash).

External collaborators of the source (the `normalize-url` package,
`JSON.stringify`/`JSON.parse`, `Date`, and the redis client) are modelled as
parameters with explicit contract hypotheses, or as small executable models,
as noted on each definition. The redis hash under the fixed key
`configurable-proxy-redis-storage` is modelled as an association list of
(field, stored string value) pairs in insertion order (small redis hashes
preserve insertion order, and HSET of an existing field keeps its position).

JavaScript string primitives (`split`, `includes`, `startsWith`,
`substring(1)`) are modelled by structurally recursive functions on the
character list of the string, so that every definition evaluates inside the
kernel.
-/

/-- Node's `require('path').sep` on POSIX platforms. -/
def pathSep : String := "/"

/-- Splits a character list on a non-empty separator, scanning left to right
with non-overlapping matches, keeping empty pieces — the semantics of
JavaScript `String.prototype.split` with a non-empty string separator. The
`fuel` argument only drives structural recursion; it is initialized to the
length of the list, which each step decreases by at least one character. -/
def splitChars (sep : List Char) : Nat → List Char → List (List Char)
  | _, [] => [[]]
  | 0, l => [l]
  | fuel + 1, c :: rest =>
    if sep.isPrefixOf (c :: rest) ∧ sep ≠ [] then
      [] :: splitChars sep fuel (rest.drop (sep.length - 1))
    else
      match splitChars sep fuel rest with
      | [] => [[c]]
      | piece :: pieces => (c :: piece) :: pieces

/-- Model of JavaScript `s.split(sep)` for a non-empty string separator
(the only use in this code base). -/
def jsSplit (s sep : String) : List String :=
  if sep = "" then [s]
  else (splitChars sep.data s.data.length s.data).map String.mk

/-- Model of JavaScript `String.prototype.includes` for a non-empty needle:
`s.includes(sub)` is true iff `sub` occurs as a substring, which holds iff
`s.split(sub)` has more than one piece. -/
def jsIncludes (s sub : String) : Bool :=
  if sub = "" then true else (jsSplit s sub).length != 1

/-- Model of JavaScript `String.prototype.startsWith`. -/
def jsStartsWith (s pre : String) : Bool :=
  pre.data.isPrefixOf s.data

/-- Model of JavaScript `s.substring(1)`. -/
def jsSubstringFrom1 (s : String) : String :=
  String.mk (s.data.drop 1)

/-- Model of JavaScript `Number(s)`: `NaN` or an integer value. The model
covers the decimal-integer-literal strings this code base feeds it (port
numbers after a colon); `Number('') = 0` as in JavaScript. -/
inductive JsNum where
  | nan : JsNum
  | val (n : Int) : JsNum
deriving DecidableEq, Repr

def digitsVal (l : List Char) : Nat :=
  l.foldl (fun acc c => acc * 10 + (c.toNat - '0'.toNat)) 0

def jsNumber (s : String) : JsNum :=
  match s.data with
  | [] => .val 0
  | '-' :: rest =>
    if rest ≠ [] ∧ rest.all Char.isDigit then .val (-(digitsVal rest : Int))
    else .nan
  | l =>
    if l.all Char.isDigit then .val (digitsVal l) else .nan

/-- The only error class the embedded code can raise by itself:
a JavaScript `TypeError` (from calling a method on `undefined`/`null`). -/
inductive JsError where
  | typeError : JsError
deriving DecidableEq, Repr

/-- One node entry produced by `cluster.js parseURL`: `{host}` or
`{host, port}` depending on whether the segment contained a colon. -/
structure ClusterHost where
  host : String
  port : Option JsNum
deriving DecidableEq, Repr

/-- The `{hosts, password}` object returned by `cluster.js parseURL`
(`password` stays `null` when no segment carried an `@`). -/
structure ClusterCfg where
  hosts : List ClusterHost
  password : Option String
deriving DecidableEq, Repr

instance {ε α : Type} [DecidableEq ε] [DecidableEq α] : DecidableEq (Except ε α)
  | .error e, .error f =>
    if h : e = f then .isTrue (by rw [h])
    else .isFalse (fun c => h (Except.error.inj c))
  | .error _, .ok _ => .isFalse (fun c => Except.noConfusion c)
  | .ok _, .error _ => .isFalse (fun c => Except.noConfusion c)
  | .ok a, .ok b =>
    if h : a = b then .isTrue (by rw [h])
    else .isFalse (fun c => h (Except.ok.inj c))

/-- `src/lib/cluster.js` — `isCluster = url => url.includes('cluster://')`. -/
def isCluster (url : String) : Bool :=
  jsIncludes url "cluster://"

/-- `src/lib/cluster.js` — `parseURL`.
`url.split('cluster://')[1]` is `undefined` when the marker is absent, and
calling `.includes` on it then throws a `TypeError`; that is the `.error`
branch. Otherwise: if the remainder contains `@`, the destructuring
`[p, hh] = url1.split('@')` takes the first two pieces, `p` (with one leading
`:` stripped) becomes the shared password and `hh` the host list; then the
host list is split on commas; empty segments are skipped (`if (!h) return`);
a segment containing a colon becomes `{host: ip, port: Number(port)}` from
its first two colon-pieces, otherwise `{host: h}`. -/
def parseURL (url : String) : Except JsError ClusterCfg :=
  match (jsSplit url "cluster://").get? 1 with
  | none => .error .typeError
  | some u1 =>
    let pw0 : Option String × String :=
      if jsIncludes u1 "@" then
        let pieces := jsSplit u1 "@"
        let p0 := pieces.headD ""
        let hh := (pieces.get? 1).getD ""
        (some (if jsStartsWith p0 ":" then jsSubstringFrom1 p0 else p0), hh)
      else
        (none, u1)
    let hosts := (jsSplit pw0.2 ",").filterMap (fun h =>
      if h = "" then none
      else if jsIncludes h ":" then
        some { host := (jsSplit h ":").headD "",
               port := some (jsNumber (((jsSplit h ":").get? 1).getD "")) }
      else
        some { host := h, port := none })
    .ok { hosts := hosts, password := pw0.1 }

/-- The configuration value produced by `_getRedisConfiguration` in
`src/lib/index.js`: a cluster `{hosts, password}` object, a sentinel
configuration (delegated to `sentinel.js`, whose result type is abstract
here), or the raw URI string passed through unchanged. -/
inductive RedisConfig (σ : Type) where
  | clusterCfg (cfg : ClusterCfg) : RedisConfig σ
  | sentinelCfg (cfg : σ) : RedisConfig σ
  | standalone (uri : String) : RedisConfig σ
deriving DecidableEq, Repr

/-- `src/lib/index.js` — `_getRedisConfiguration()`, with the resolved URI as
argument (`_getRedisUri` is options/environment glue). The sentinel module is
not part of the repository's `src/`, so its detector and parser are abstract
parameters. Check order is literal: cluster first, then sentinel, then the
URI unchanged. -/
def getRedisConfiguration {σ : Type} (isSentinel : String → Bool)
    (sentinelParse : String → σ) (url : String) :
    Except JsError (RedisConfig σ) :=
  if isCluster url then
    (parseURL url).map .clusterCfg
  else if isSentinel url then
    .ok (.sentinelCfg (sentinelParse url))
  else
    .ok (.standalone url)

/-- `src/lib/index.js` — `cleanPath(path)`:
`path && path !== pathSep ? normalizeUrl(path) : pathSep`. The `normalize-url`
package is external, so it is a parameter `nu`; a falsy path (empty string)
or the bare separator maps to the root key. -/
def cleanPath (nu : String → String) (path : String) : String :=
  if path ≠ "" ∧ path ≠ pathSep then nu path else pathSep

/-- `src/lib/index.js` — `_getKeyPaths(path)`:
`cleanPath(path).split(pathSep).map((part, index, arr) =>
  arr.slice(0, index).join(pathSep) + '/' + part).reverse()`. -/
def getKeyPaths (nu : String → String) (path : String) : List String :=
  let parts := jsSplit (cleanPath nu path) pathSep
  (parts.mapIdx (fun i part =>
    String.intercalate pathSep (parts.take i) ++ "/" ++ part)).reverse

/-- A JSON-representable route field value, as this code base uses them:
a string, a number, or a `Date` object (epoch milliseconds). `Date` never
results from `JSON.parse`; it appears in records handed to `add` and is
produced by `_expandLastActivity`. -/
inductive RVal where
  | str (s : String) : RVal
  | num (n : Int) : RVal
  | date (t : Int) : RVal
deriving DecidableEq, Repr

/-- JavaScript truthiness of an `RVal` (`''` and `0` are falsy; `Date`
objects are always truthy). -/
def rvalTruthy : RVal → Bool
  | .str s => s ≠ ""
  | .num n => n ≠ 0
  | .date _ => true

def RVal.isDate : RVal → Bool
  | .date _ => true
  | _ => false

/-- A route record: a JavaScript object, modelled as its fields in property
order. -/
abbrev Route := List (String × RVal)

/-- Model of `new Date(x)` for the values `_expandLastActivity` feeds it:
a string is parsed by the external `Date` parser `nd`, a number is taken as
epoch milliseconds, a `Date` is copied. -/
def jsDate (nd : String → Int) : RVal → RVal
  | .str s => .date (nd s)
  | .num n => .date n
  | .date t => .date t

/-- Model of `Object.assign(base, upd)`: fields of `base` in place, each
overwritten by `upd`'s value for the same key when present, followed by
`upd`'s fields whose keys are new. -/
def objAssign (base upd : Route) : Route :=
  base.map (fun kv =>
    match upd.lookup kv.1 with
    | some v => (kv.1, v)
    | none => kv)
  ++ upd.filter (fun kv => (base.lookup kv.1).isNone)

/-- `src/lib/index.js` — `_expandLastActivity(item)`: if `item.last_activity`
is truthy, `Object.assign(item, {last_activity: new Date(item.last_activity)})`,
else `item` unchanged. `nd` is the external `Date`-from-string parser. -/
def expandLastActivity (nd : String → Int) (item : Route) : Route :=
  match item.lookup "last_activity" with
  | some v =>
    if rvalTruthy v then objAssign item [("last_activity", jsDate nd v)]
    else item
  | none => item

/-- `src/lib/index.js` — `_expand(item)` for a raw stored string (`hget`
returning `null` is handled at the call sites by `Option.bind`): a falsy
(empty) string yields `undefined`, otherwise `JSON.parse` (the external
`parse`, restricted by the serialization contract to record results) followed
by `_expandLastActivity`. -/
def expandItem (parse : String → Route) (nd : String → Int)
    (item : String) : Option Route :=
  if item = "" then none else some (expandLastActivity nd (parse item))

/-- How `JSON.stringify` renders `Date` fields inside a record: each `Date`
value becomes its ISO-8601 string (`iso`), all other values are kept. The
serialization contract for the external pair (`stringify`, `parse`) is
`parse (stringify r) = stripDates iso r`. -/
def stripDates (iso : Int → String) (r : Route) : Route :=
  r.map (fun kv =>
    match kv.2 with
    | .date t => (kv.1, .str (iso t))
    | _ => kv)

/-- The redis hash at key `configurable-proxy-redis-storage`: fields with
their stored string values, in insertion order. -/
abbrev RedisHash := List (String × String)

/-- `HSET`: overwrite the field in place when present, else append it. -/
def hset (h : RedisHash) (k v : String) : RedisHash :=
  if (List.lookup k h).isSome then
    h.map (fun kv => if kv.1 = k then (k, v) else kv)
  else
    h ++ [(k, v)]

/-- `HDEL`: remove the field. -/
def hdel (h : RedisHash) (k : String) : RedisHash :=
  h.filter (fun kv => kv.1 ≠ k)

/-- `HKEYS`: all field names. -/
def hkeys (h : RedisHash) : List String :=
  h.map Prod.fst

/-- `src/lib/index.js` — `get(path)`: `hget` by the cleaned path, then
`_expand` (`hget` of a missing field yields `null`, which `_expand` maps to
`undefined`). -/
def getOp (nu : String → String) (parse : String → Route) (nd : String → Int)
    (h : RedisHash) (path : String) : Option Route :=
  (List.lookup (cleanPath nu path) h).bind (expandItem parse nd)

/-- `src/lib/index.js` — `add(path, data)`: `hset` of `_scrub(data)` under
the cleaned path. `data` is a record (an object, hence truthy), so `_scrub`
is the external `stringify`. -/
def addOp (nu : String → String) (stringify : Route → String)
    (h : RedisHash) (path : String) (data : Route) : RedisHash :=
  hset h (cleanPath nu path) (stringify data)

/-- `src/lib/index.js` — `remove(path)`: `hdel` of the cleaned path. -/
def removeOp (nu : String → String) (h : RedisHash) (path : String) :
    RedisHash :=
  hdel h (cleanPath nu path)

/-- `src/lib/index.js` — `update(path, data)`: `get` on the cleaned key, then
`add` of `Object.assign(item, data)` under that key. When `get` resolves
`undefined` (no field, or empty stored value), `Object.assign(undefined, data)`
throws a `TypeError`. Both inner calls re-clean the already-cleaned key,
exactly as the source does. -/
def updateOp (nu : String → String) (stringify : Route → String)
    (parse : String → Route) (nd : String → Int)
    (h : RedisHash) (path : String) (data : Route) :
    Except JsError RedisHash :=
  let key := cleanPath nu path
  match getOp nu parse nd h key with
  | none => .error .typeError
  | some item => .ok (addOp nu stringify h key (objAssign item data))

/-- `src/lib/index.js` — `getAll()`: `hgetall`, then `_expand` applied to
every value in place (keys are all kept; a field whose value expands to
`undefined` keeps its key with value `undefined`). -/
def getAllOp (parse : String → Route) (nd : String → Int) (h : RedisHash) :
    List (String × Option Route) :=
  h.map (fun kv => (kv.1, expandItem parse nd kv.2))

/-- `src/lib/index.js` — `getTarget(path)`: the ancestor keys of
`cleanPath(path)` (cleaned again inside `_getKeyPaths`), filtered to those
that are a key of `getAll()`'s result with a truthy (expanded) value — an
expanded value is an object, hence truthy exactly when present; the first
survivor is returned as `{prefix, data}`, and `undefined` when none
survive. -/
def getTarget (nu : String → String) (parse : String → Route)
    (nd : String → Int) (h : RedisHash) (path : String) :
    Option (String × Route) :=
  let paths := getKeyPaths nu (cleanPath nu path)
  let registered := getAllOp parse nd h
  let validRoutes := paths.filter (fun route =>
    match List.lookup route registered with
    | some (some _) => true
    | _ => false)
  match validRoutes with
  | [] => none
  | k :: _ =>
    match List.lookup k registered with
    | some (some data) => some (k, data)
    | _ => none

/-- `src/lib/index.js` — `clear(keepRoot = true)`: `hkeys`, filter by
`keepRoot && key !== pathSep`, and `hdel` each survivor in one `multi`
batch (applied here by folding the queued deletions in order). -/
def clearOp (keepRoot : Bool) (h : RedisHash) : RedisHash :=
  ((hkeys h).filter (fun key => keepRoot && key ≠ pathSep)).foldl hdel h

/-! Helper lemmas about association-list lookup and the hash operations. -/

theorem lookup_cons_pair {β : Type} (a k : String) (v : β)
    (t : List (String × β)) :
    List.lookup a ((k, v) :: t) = if k = a then some v else List.lookup a t := by
  by_cases hk : k = a
  · simp [List.lookup, hk]
  · have h1 : (k == a) = false := beq_eq_false_iff_ne.mpr hk
    have h2 : (a == k) = false := beq_eq_false_iff_ne.mpr fun hc => hk hc.symm
    simp [List.lookup, h1, h2, hk]

theorem lookup_eq_none_iff {β : Type} (a : String) (l : List (String × β)) :
    List.lookup a l = none ↔ ∀ kv ∈ l, kv.1 ≠ a := by
  induction l with
  | nil => simp
  | cons kv t ih =>
    obtain ⟨k, v⟩ := kv
    rw [lookup_cons_pair]
    by_cases hk : k = a <;> simp [hk, ih]

theorem lookup_append_pair {β : Type} (a : String) (l₁ l₂ : List (String × β)) :
    List.lookup a (l₁ ++ l₂) = (List.lookup a l₁).or (List.lookup a l₂) := by
  induction l₁ with
  | nil => simp
  | cons kv t ih =>
    obtain ⟨k, v⟩ := kv
    rw [List.cons_append, lookup_cons_pair, lookup_cons_pair]
    by_cases hk : k = a <;> simp [hk, ih]

theorem lookup_map_replace_self (t : List (String × String)) (k v : String)
    (hs : (List.lookup k t).isSome) :
    List.lookup k (t.map (fun kv => if kv.1 = k then (k, v) else kv))
      = some v := by
  induction t with
  | nil => simp at hs
  | cons kv t ih =>
    obtain ⟨k1, v1⟩ := kv
    by_cases hk : k1 = k
    · simp [hk, lookup_cons_pair]
    · rw [lookup_cons_pair k k1 v1 t] at hs
      simp only [hk, if_false] at hs
      simp [hk, lookup_cons_pair, ih hs]

theorem lookup_map_replace_ne (t : List (String × String)) (k v a : String)
    (hne : a ≠ k) :
    List.lookup a (t.map (fun kv => if kv.1 = k then (k, v) else kv))
      = List.lookup a t := by
  have hka : ¬ (k = a) := fun hc => hne hc.symm
  induction t with
  | nil => simp
  | cons kv t ih =>
    obtain ⟨k1, v1⟩ := kv
    by_cases hk : k1 = k
    · subst hk
      simp [lookup_cons_pair, hka, ih]
    · simp [hk, lookup_cons_pair, ih]

theorem lookup_hset_self (h : RedisHash) (k v : String) :
    List.lookup k (hset h k v) = some v := by
  unfold hset
  by_cases hs : (List.lookup k h).isSome
  · rw [if_pos hs]
    exact lookup_map_replace_self h k v hs
  · rw [if_neg hs, lookup_append_pair]
    have hnone : List.lookup k h = none := by
      cases hx : List.lookup k h
      · rfl
      · rw [hx] at hs; simp at hs
    simp [hnone, lookup_cons_pair]

theorem lookup_hset_ne (h : RedisHash) (k v a : String) (hne : a ≠ k) :
    List.lookup a (hset h k v) = List.lookup a h := by
  have hka : ¬ (k = a) := fun hc => hne hc.symm
  unfold hset
  by_cases hs : (List.lookup k h).isSome
  · rw [if_pos hs]
    exact lookup_map_replace_ne h k v a hne
  · rw [if_neg hs, lookup_append_pair]
    simp [lookup_cons_pair, hka]

theorem lookup_hdel_self (h : RedisHash) (k : String) :
    List.lookup k (hdel h k) = none := by
  unfold hdel
  rw [lookup_eq_none_iff]
  intro kv hkv
  have := List.of_mem_filter hkv
  simpa using this

theorem lookup_filter_of_key {β : Type} (p : String × β → Bool) (a : String)
    (l : List (String × β)) (ha : ∀ kv ∈ l, kv.1 = a → p kv = true) :
    List.lookup a (l.filter p) = List.lookup a l := by
  induction l with
  | nil => simp
  | cons kv t ih =>
    obtain ⟨k1, v1⟩ := kv
    have iht := ih (fun kv hkv => ha kv (List.mem_cons_of_mem _ hkv))
    rw [List.filter_cons, lookup_cons_pair]
    by_cases hk : k1 = a
    · subst hk
      have hp : p (k1, v1) = true := ha (k1, v1) (List.mem_cons_self _ _) rfl
      simp [hp, lookup_cons_pair]
    · by_cases hp : p (k1, v1) = true
      · simp [hp, hk, lookup_cons_pair, iht]
      · simp [hp, hk, iht]

theorem lookup_hdel_ne (h : RedisHash) (k a : String) (hne : a ≠ k) :
    List.lookup a (hdel h k) = List.lookup a h := by
  unfold hdel
  exact lookup_filter_of_key _ a h (fun kv _ hk => by simp [hk, hne])

theorem lookup_getAllOp (parse : String → Route) (nd : String → Int)
    (h : RedisHash) (a : String) :
    List.lookup a (getAllOp parse nd h)
      = (List.lookup a h).map (expandItem parse nd) := by
  unfold getAllOp
  induction h with
  | nil => simp
  | cons kv t ih =>
    obtain ⟨k, v⟩ := kv
    rw [List.map_cons, lookup_cons_pair, lookup_cons_pair]
    by_cases hk : k = a <;> simp [hk, ih]

theorem head?_filter_eq_find? {α : Type} (p : α → Bool) (l : List α) :
    (l.filter p).head? = l.find? p := by
  induction l with
  | nil => simp
  | cons x t ih =>
    by_cases hx : p x <;> simp [List.filter_cons, List.find?_cons, hx, ih]

theorem map_pointwise_id {α : Type} (l : List α) (f : α → α)
    (h : ∀ x ∈ l, f x = x) : l.map f = l := by
  induction l with
  | nil => rfl
  | cons x t ih =>
    rw [List.map_cons, h x (List.mem_cons_self _ _),
      ih (fun y hy => h y (List.mem_cons_of_mem _ hy))]

theorem lookup_of_mem_nodup {β : Type} (l : List (String × β)) (a : String)
    (v : β) (hnodup : (l.map Prod.fst).Nodup) (hmem : (a, v) ∈ l) :
    List.lookup a l = some v := by
  induction l with
  | nil => simp at hmem
  | cons kv t ih =>
    obtain ⟨k1, v1⟩ := kv
    rw [List.map_cons, List.nodup_cons] at hnodup
    rw [lookup_cons_pair]
    rcases List.mem_cons.mp hmem with heq | hmem'
    · have h1 : a = k1 := congrArg Prod.fst heq
      have h2 : v = v1 := congrArg Prod.snd heq
      subst h1
      subst h2
      simp
    · have hka : k1 ≠ a := by
        intro hc
        subst hc
        have hin : (k1, v).1 ∈ List.map Prod.fst t :=
          List.mem_map_of_mem Prod.fst hmem'
        exact hnodup.1 hin
      simp [hka, ih hnodup.2 hmem']

theorem lookup_map_assign (base upd : Route) (a : String) :
    List.lookup a (base.map (fun kv =>
        match List.lookup kv.1 upd with
        | some v => (kv.1, v)
        | none => kv))
      = (List.lookup a base).map (fun bv => (List.lookup a upd).getD bv) := by
  induction base with
  | nil => simp
  | cons kv t ih =>
    obtain ⟨k1, v1⟩ := kv
    rw [List.map_cons, lookup_cons_pair a k1 v1 t]
    by_cases hk : k1 = a
    · subst hk
      cases hu : List.lookup k1 upd <;> simp [hu, lookup_cons_pair]
    · cases hu : List.lookup k1 upd <;> simp [hu, hk, lookup_cons_pair, ih]

theorem lookup_objAssign (base upd : Route) (a : String) :
    List.lookup a (objAssign base upd)
      = (List.lookup a upd).or (List.lookup a base) := by
  unfold objAssign
  rw [lookup_append_pair, lookup_map_assign]
  cases hb : List.lookup a base
  · rw [lookup_filter_of_key _ a upd (fun kv _ hk => by simp [hk, hb])]
    cases hu : List.lookup a upd <;> simp
  · cases hu : List.lookup a upd <;> simp [hu]

theorem stripDates_eq_self (iso : Int → String) (r : Route)
    (h : ∀ kv ∈ r, kv.2.isDate = false) : stripDates iso r = r := by
  unfold stripDates
  refine map_pointwise_id r _ (fun kv hkv => ?_)
  cases hv : kv.2
  · rfl
  · rfl
  · have := h kv hkv
    rw [hv] at this
    simp [RVal.isDate] at this

theorem lookup_stripDates (iso : Int → String) (r : Route) (a : String) :
    List.lookup a (stripDates iso r)
      = (List.lookup a r).map (fun v =>
          match v with
          | .date t => RVal.str (iso t)
          | v => v) := by
  unfold stripDates
  induction r with
  | nil => simp
  | cons kv t ih =>
    obtain ⟨k1, v1⟩ := kv
    rw [List.map_cons]
    by_cases hk : k1 = a <;> cases v1 <;>
      simp [hk, lookup_cons_pair, ih]

theorem objAssign_single (base : Route) (c : String) (w : RVal)
    (hc : (List.lookup c base).isSome) :
    objAssign base [(c, w)]
      = base.map (fun kv => if kv.1 = c then (kv.1, w) else kv) := by
  unfold objAssign
  have hnone : (List.lookup c base).isNone = false := by
    cases hx : List.lookup c base
    · rw [hx] at hc; simp at hc
    · rfl
  have hfilter :
      List.filter (fun kv => (List.lookup kv.1 base).isNone) [(c, w)] = [] := by
    simp [List.filter_cons, hnone]
  rw [hfilter, List.append_nil]
  refine List.map_congr_left (fun kv hkv => ?_)
  rw [lookup_cons_pair kv.1 c w []]
  by_cases hk : kv.1 = c
  · rw [if_pos hk.symm, if_pos hk]
  · rw [if_neg (fun hcc => hk hcc.symm), if_neg hk]
    simp [List.lookup]

theorem expand_strip (nd : String → Int) (iso : Int → String) (r : Route)
    (hnodup : (r.map Prod.fst).Nodup)
    (hflds : ∀ kv ∈ r, kv.1 ≠ "last_activity" → kv.2.isDate = false)
    (hla : ∀ v, List.lookup "last_activity" r = some v →
        ∃ t, v = RVal.date t ∧ nd (iso t) = t ∧ iso t ≠ "") :
    expandLastActivity nd (stripDates iso r) = r := by
  cases hv : List.lookup "last_activity" r with
  | none =>
    have hnola : ∀ kv ∈ r, kv.1 ≠ "last_activity" :=
      (lookup_eq_none_iff _ r).mp hv
    have hnodate : ∀ kv ∈ r, kv.2.isDate = false :=
      fun kv hkv => hflds kv hkv (hnola kv hkv)
    rw [stripDates_eq_self iso r hnodate]
    unfold expandLastActivity
    rw [hv]
  | some v =>
    obtain ⟨t, rfl, hnd, hiso⟩ := hla v hv
    have hlstrip : List.lookup "last_activity" (stripDates iso r)
        = some (RVal.str (iso t)) := by
      rw [lookup_stripDates, hv]
      rfl
    have htruthy : rvalTruthy (RVal.str (iso t)) = true := by
      simp [rvalTruthy, hiso]
    have hjs : jsDate nd (RVal.str (iso t)) = RVal.date t := by
      simp [jsDate, hnd]
    have hstep : expandLastActivity nd (stripDates iso r)
        = objAssign (stripDates iso r)
            [("last_activity", RVal.date t)] := by
      unfold expandLastActivity
      rw [hlstrip]
      simp [htruthy, hjs]
    rw [hstep]
    have hsome : (List.lookup "last_activity" (stripDates iso r)).isSome := by
      rw [hlstrip]; rfl
    rw [objAssign_single _ _ _ hsome]
    unfold stripDates
    rw [List.map_map]
    refine map_pointwise_id r _ (fun kv hkv => ?_)
    obtain ⟨k0, v0⟩ := kv
    by_cases hk : k0 = "last_activity"
    · have hkv2 : List.lookup k0 r = some v0 :=
        lookup_of_mem_nodup r k0 v0 hnodup hkv
      rw [hk, hv] at hkv2
      have hveq : v0 = RVal.date t := (Option.some.inj hkv2).symm
      subst hveq
      simp [Function.comp, hk]
    · have hdf := hflds (k0, v0) hkv hk
      cases v0 with
      | str s => simp [Function.comp, hk]
      | num n => simp [Function.comp, hk]
      | date t2 => simp [RVal.isDate] at hdf

/-- The pure part of `_getKeyPaths` applied to an already-cleaned key. -/
def keyPathsOf (s : String) : List String :=
  let parts := jsSplit s pathSep
  (parts.mapIdx (fun i part =>
    String.intercalate pathSep (parts.take i) ++ "/" ++ part)).reverse

theorem getKeyPaths_eq_keyPathsOf (nu : String → String) (p : String) :
    getKeyPaths nu p = keyPathsOf (cleanPath nu p) := rfl

theorem cleanPath_idem_of (nu : String → String)
    (hid : ∀ s, nu (nu s) = nu s) (hne : ∀ s, nu s ≠ "") (p : String) :
    cleanPath nu (cleanPath nu p) = cleanPath nu p := by
  unfold cleanPath
  by_cases hp : p ≠ "" ∧ p ≠ pathSep
  · rw [if_pos hp]
    by_cases hq : nu p ≠ "" ∧ nu p ≠ pathSep
    · rw [if_pos hq]
      exact hid p
    · rw [if_neg hq]
      push_neg at hq
      exact (hq (hne p)).symm
  · rw [if_neg hp, if_neg (fun hc => hc.2 rfl)]

theorem splitChars_ne_nil (sep : List Char) (fuel : Nat) (l : List Char) :
    splitChars sep fuel l ≠ [] := by
  cases fuel with
  | zero => cases l <;> simp [splitChars]
  | succ n =>
    cases l with
    | nil => simp [splitChars]
    | cons c rest =>
      unfold splitChars
      by_cases hp : sep.isPrefixOf (c :: rest) ∧ sep ≠ []
      · simp [hp]
      · rw [if_neg hp]
        cases hsp : splitChars sep n rest <;> simp

theorem parseURL_ok_of_isCluster (url : String) (hc : isCluster url = true) :
    ∃ cfg, parseURL url = .ok cfg := by
  have hne : jsSplit url "cluster://" ≠ [] := by
    unfold jsSplit
    rw [if_neg (by decide : ¬("cluster://" : String) = "")]
    simp [splitChars_ne_nil]
  have hlen : (jsSplit url "cluster://").length ≠ 1 := by
    have hb : ((jsSplit url "cluster://").length != 1) = true := hc
    exact bne_iff_ne.mp hb
  have h2 : 2 ≤ (jsSplit url "cluster://").length := by
    rcases hx : jsSplit url "cluster://" with _ | ⟨a, _ | ⟨b, t⟩⟩
    · exact absurd hx hne
    · rw [hx] at hlen; simp at hlen
    · simp [List.length_cons]
  obtain ⟨u1, hu1⟩ : ∃ u1, (jsSplit url "cluster://").get? 1 = some u1 := by
    cases hg : (jsSplit url "cluster://").get? 1 with
    | none =>
      rw [List.get?_eq_none] at hg
      omega
    | some u => exact ⟨u, rfl⟩
  unfold parseURL
  rw [hu1]
  exact ⟨_, rfl⟩

theorem getTarget_eq_find (nu : String → String) (parse : String → Route)
    (nd : String → Int) (h : RedisHash) (p : String) :
    getTarget nu parse nd h p
      = ((getKeyPaths nu (cleanPath nu p)).find? (fun k =>
            match List.lookup k h with
            | some raw => decide (raw ≠ "")
            | none => false)).map
          (fun k => (k, expandLastActivity nd
              (parse ((List.lookup k h).getD "")))) := by
  unfold getTarget
  dsimp only
  have hpred : ∀ k ∈ getKeyPaths nu (cleanPath nu p),
      (match List.lookup k (getAllOp parse nd h) with
        | some (some _) => true
        | _ => false)
      = (match List.lookup k h with
        | some raw => decide (raw ≠ "")
        | none => false) := by
    intro k _
    simp only [lookup_getAllOp]
    cases hr : List.lookup k h with
    | none => rfl
    | some raw =>
      by_cases hraw : raw = "" <;> simp [expandItem, hraw]
  rw [List.filter_congr hpred]
  cases hf : (getKeyPaths nu (cleanPath nu p)).filter (fun k =>
      match List.lookup k h with
      | some raw => decide (raw ≠ "")
      | none => false) with
  | nil =>
    have hnone : (getKeyPaths nu (cleanPath nu p)).find? (fun k =>
        match List.lookup k h with
        | some raw => decide (raw ≠ "")
        | none => false) = none := by
      rw [← head?_filter_eq_find?, hf]
      rfl
    rw [hnone]
    rfl
  | cons k tail =>
    have hfind : (getKeyPaths nu (cleanPath nu p)).find? (fun k =>
        match List.lookup k h with
        | some raw => decide (raw ≠ "")
        | none => false) = some k := by
      rw [← head?_filter_eq_find?, hf]
      rfl
    have hk : (fun k =>
        match List.lookup k h with
        | some raw => decide (raw ≠ "")
        | none => false) k = true := by
      have hmem : k ∈ (getKeyPaths nu (cleanPath nu p)).filter (fun k =>
          match List.lookup k h with
          | some raw => decide (raw ≠ "")
          | none => false) := by
        rw [hf]
        exact List.mem_cons_self _ _
      exact (List.mem_filter.mp hmem).2
    have hk2 : (match List.lookup k h with
        | some raw => decide (raw ≠ "")
        | none => false) = true := hk
    obtain ⟨raw, hraw, hrne⟩ : ∃ raw, List.lookup k h = some raw ∧ raw ≠ "" := by
      cases hr : List.lookup k h with
      | none => rw [hr] at hk2; simp at hk2
      | some raw =>
        rw [hr] at hk2
        exact ⟨raw, rfl, of_decide_eq_true hk2⟩
    have hreg : List.lookup k (getAllOp parse nd h)
        = some (some (expandLastActivity nd (parse raw))) := by
      rw [lookup_getAllOp, hraw]
      simp [expandItem, hrne]
    rw [hfind]
    simp [hreg, hraw]

/-! Concrete instantiations of the external collaborators, used by the
witnesses below: a normalizer that fixes canonical keys, a constant
serializer/parser pair satisfying the serialization contract at the records
they are used on, and a constant ISO/date pair. -/

def nuW : String → String := fun s => if s = "" then pathSep else s

theorem nuW_idem : ∀ s, nuW (nuW s) = nuW s := by
  intro s
  by_cases hs : s = "" <;> simp [nuW, pathSep, hs]

theorem nuW_ne : ∀ s, nuW s ≠ "" := by
  intro s
  by_cases hs : s = "" <;> simp [nuW, pathSep, hs]

def rW : Route := [("target", RVal.str "http://h:8000"), ("last_activity", RVal.date 5)]

def isoW : Int → String := fun _ => "1970-01-01T00:00:00.005Z"

def ndW : String → Int := fun _ => 5

def stringifyW : Route → String := fun _ => "J"

def parseW : String → Route := fun _ => stripDates isoW rW

/-! The claims. -/

/-- C1: for every table state and path, `getTarget` computes the ancestor
sequence of the (normalized) path, consults the one full-table snapshot from
`getAll`, and returns the first — most specific — ancestor key that is
present in the table with a non-empty decoded value, paired with its decoded
route. In particular, with records stored at `/foo` and `/foo/bar`,
resolving `/foo/bar/baz` yields the `/foo/bar` record, and with an empty
table the result is `none` (absent), not an error. -/
theorem getTarget_resolve_spec (nu : String → String) (parse : String → Route)
    (nd : String → Int) (h : RedisHash) (p : String) (v1 v2 : String)
    (_hv1 : v1 ≠ "") (hv2 : v2 ≠ "")
    (hnorm : nu "/foo/bar/baz" = "/foo/bar/baz") :
    (getTarget nu parse nd h p
      = ((getKeyPaths nu (cleanPath nu p)).find? (fun k =>
            match List.lookup k h with
            | some raw => decide (raw ≠ "")
            | none => false)).map
          (fun k => (k, expandLastActivity nd
              (parse ((List.lookup k h).getD ""))))) ∧
    (getTarget nu parse nd [("/foo", v1), ("/foo/bar", v2)] "/foo/bar/baz"
      = some ("/foo/bar", expandLastActivity nd (parse v2))) ∧
    (getTarget nu parse nd [] p = none) := by
  refine ⟨getTarget_eq_find nu parse nd h p, ?_, ?_⟩
  · rw [getTarget_eq_find]
    have hclean : cleanPath nu "/foo/bar/baz" = "/foo/bar/baz" := by
      rw [show cleanPath nu "/foo/bar/baz" = nu "/foo/bar/baz" from rfl]
      exact hnorm
    rw [getKeyPaths_eq_keyPathsOf, hclean, hclean,
      show keyPathsOf "/foo/bar/baz"
        = ["/foo/bar/baz", "/foo/bar", "/foo", "/"] from by decide]
    have hl1 : List.lookup "/foo/bar/baz" [("/foo", v1), ("/foo/bar", v2)]
        = none := by
      rw [lookup_cons_pair, if_neg (by decide), lookup_cons_pair,
        if_neg (by decide)]
      rfl
    have hl2 : List.lookup "/foo/bar" [("/foo", v1), ("/foo/bar", v2)]
        = some v2 := by
      rw [lookup_cons_pair, if_neg (by decide), lookup_cons_pair, if_pos rfl]
    rw [List.find?_cons_of_neg _ (by simp [hl1]),
      List.find?_cons_of_pos _ (by simp [hl2, hv2])]
    simp [hl2]
  · rw [getTarget_eq_find]
    rw [List.find?_eq_none.mpr (fun x _ => by simp [List.lookup])]
    rfl

/-- C1 witness: the `/foo` and `/foo/bar` scenario at concrete collaborators. -/
theorem getTarget_resolve_spec_witness :
    getTarget nuW parseW ndW [("/foo", "a"), ("/foo/bar", "b")] "/foo/bar/baz"
      = some ("/foo/bar", expandLastActivity ndW (parseW "b")) :=
  (getTarget_resolve_spec nuW parseW ndW [] "/x" "a" "b"
    (by decide) (by decide) (by decide)).2.1

/-- C2 (code bug): the claim says `clear(keepRoot=false)` deletes every key
including root, but the source filters the keys to delete with
`keepRoot && key !== pathSep`, which is false for every key when `keepRoot`
is false — so `clear(false)` deletes nothing at all, contradicting the
method's own doc comment ("Clear all registered routes ..."). The
`keepRoot=true` half behaves as claimed: every key except the root `/` is
deleted. -/
theorem clearOp_keepRoot_behavior :
    (∀ h : RedisHash, clearOp false h = h) ∧
    clearOp false [("/", "a"), ("/foo", "b"), ("/foo/bar", "c")]
      = [("/", "a"), ("/foo", "b"), ("/foo/bar", "c")] ∧
    clearOp true [("/", "a"), ("/foo", "b"), ("/foo/bar", "c")]
      = [("/", "a")] := by
  refine ⟨?_, by decide, by decide⟩
  intro h
  unfold clearOp
  have hnil : (hkeys h).filter (fun key => false && decide (key ≠ pathSep))
      = [] := by
    simp
  rw [hnil]
  rfl

/-- C3: `update` on a path with no existing record (no field under the
normalized key, or an empty stored value, which decodes to `undefined`)
fails — `Object.assign(undefined, data)` raises — and on an existing record
it shallow-merges the partial fields over the decoded record (partial fields
win on every key, as the lookup equation in the last conjunct states) and
writes the merged record back under the same normalized key. Stated under
the `normalize-url` contract (idempotent, never empty). -/
theorem updateOp_merge_spec (nu : String → String) (stringify : Route → String)
    (parse : String → Route) (nd : String → Int) (h : RedisHash) (p : String)
    (data : Route) (hid : ∀ s, nu (nu s) = nu s) (hne : ∀ s, nu s ≠ "") :
    (List.lookup (cleanPath nu p) h = none →
        updateOp nu stringify parse nd h p data = .error .typeError) ∧
    (List.lookup (cleanPath nu p) h = some "" →
        updateOp nu stringify parse nd h p data = .error .typeError) ∧
    (∀ raw, raw ≠ "" → List.lookup (cleanPath nu p) h = some raw →
        updateOp nu stringify parse nd h p data
          = .ok (hset h (cleanPath nu p)
              (stringify (objAssign (expandLastActivity nd (parse raw)) data)))) ∧
    (∀ item : Route, ∀ k : String,
        List.lookup k (objAssign item data)
          = (List.lookup k data).or (List.lookup k item)) := by
  have hkey : cleanPath nu (cleanPath nu p) = cleanPath nu p :=
    cleanPath_idem_of nu hid hne p
  refine ⟨?_, ?_, ?_, fun item k => lookup_objAssign item data k⟩
  · intro hnone
    unfold updateOp getOp
    dsimp only
    rw [hkey, hnone]
    rfl
  · intro hempty
    unfold updateOp getOp
    dsimp only
    rw [hkey, hempty]
    rfl
  · intro raw hraw hsome
    unfold updateOp getOp addOp
    dsimp only
    rw [hkey, hsome]
    have hexp : expandItem parse nd raw
        = some (expandLastActivity nd (parse raw)) := by
      unfold expandItem
      rw [if_neg hraw]
    simp [hexp, hkey]

/-- C3 witness: updating a path with no record fails. -/
theorem updateOp_merge_spec_witness :
    updateOp nuW stringifyW parseW ndW [] "/a" rW = .error .typeError :=
  (updateOp_merge_spec nuW stringifyW parseW ndW [] "/a" rW
    nuW_idem nuW_ne).1 (by decide)

/-- C4 (counterexample): for the root key `/` the ancestor enumeration does
not produce the single-element `["/"]` the claim states: splitting `/` on
the separator yields two empty segments, so the produced sequence is
`["/", "/"]` (root twice). -/
theorem getKeyPaths_root_counterexample :
    getKeyPaths nuW "/" = ["/", "/"] ∧ getKeyPaths nuW "/" ≠ ["/"] :=
  ⟨by decide, by decide⟩

/-- C4 (amended): for the key `/foo/bar/xyz` the enumeration produces
exactly `["/foo/bar/xyz", "/foo/bar", "/foo", "/"]` — every prefix from the
full path down to root, most specific first — as claimed; for the root key
`/`, however, it produces the two-element sequence `["/", "/"]` (the root
key repeated), not the single-element `["/"]`. -/
theorem getKeyPaths_ancestor_sequence (nu : String → String)
    (hfoo : nu "/foo/bar/xyz" = "/foo/bar/xyz") :
    getKeyPaths nu "/foo/bar/xyz"
      = ["/foo/bar/xyz", "/foo/bar", "/foo", "/"] ∧
    (∀ nu2 : String → String, getKeyPaths nu2 "/" = ["/", "/"]) := by
  constructor
  · have hclean : cleanPath nu "/foo/bar/xyz" = "/foo/bar/xyz" := by
      rw [show cleanPath nu "/foo/bar/xyz" = nu "/foo/bar/xyz" from rfl]
      exact hfoo
    rw [getKeyPaths_eq_keyPathsOf, hclean]
    decide
  · intro nu2
    rw [getKeyPaths_eq_keyPathsOf, show cleanPath nu2 "/" = pathSep from rfl]
    decide

/-- C4 witness: the `/foo/bar/xyz` sequence at a concrete normalizer. -/
theorem getKeyPaths_ancestor_sequence_witness :
    getKeyPaths nuW "/foo/bar/xyz"
      = ["/foo/bar/xyz", "/foo/bar", "/foo", "/"] :=
  (getKeyPaths_ancestor_sequence nuW (by decide)).1

/-- C5 (counterexample): for the cluster string `cluster://secret@` — a
credential prefix with an empty host remainder — topology resolution does
not fail at all: `parseURL` succeeds, records the password, and returns an
empty host list. There is no `ConfigurationError` anywhere in the parser. -/
theorem parseURL_empty_host_counterexample :
    parseURL "cluster://secret@"
      = .ok { hosts := [], password := some "secret" } := by
  decide

/-- C5 (amended): a cluster connection string whose post-marker text is a
credential prefix followed by `@` and an empty host remainder is silently
tolerated: parsing succeeds with the credential as the shared password and
an empty node list (the empty remainder splits into one empty segment,
which `if (!h) return` skips), rather than failing. -/
theorem parseURL_credential_empty_host_tolerated (url p1 : String)
    (hsplit : jsSplit url "cluster://" = ["", p1 ++ "@"])
    (hat : jsSplit (p1 ++ "@") "@" = [p1, ""])
    (hcolon : jsStartsWith p1 ":" = false) :
    parseURL url = .ok { hosts := [], password := some p1 } := by
  have hinc : jsIncludes (p1 ++ "@") "@" = true := by
    rw [show jsIncludes (p1 ++ "@") "@"
          = ((jsSplit (p1 ++ "@") "@").length != 1) from rfl, hat]
    rfl
  have hempty : jsSplit "" "," = [""] := rfl
  simp [parseURL, hsplit, hat, hinc, hcolon, hempty]

/-- C5 witness: a concrete credential-only cluster string. -/
theorem parseURL_credential_empty_host_tolerated_witness :
    parseURL "cluster://pw@" = .ok { hosts := [], password := some "pw" } :=
  parseURL_credential_empty_host_tolerated "cluster://pw@" "pw"
    (by decide) (by decide) (by decide)

/-- C6: parsing `cluster://secret@h1:1000,h2:2000` yields exactly the two
nodes `{h1, 1000}` and `{h2, 2000}` with the single shared password
`secret`; the numeric text after `:` is parsed as an integer; a trailing
comma adds only an empty segment, which is ignored; and a node segment
without `:` carries no explicit port. -/
theorem parseURL_cluster_example :
    parseURL "cluster://secret@h1:1000,h2:2000"
      = .ok { hosts := [{ host := "h1", port := some (.val 1000) },
                        { host := "h2", port := some (.val 2000) }],
              password := some "secret" } ∧
    parseURL "cluster://secret@h1:1000,h2:2000,"
      = .ok { hosts := [{ host := "h1", port := some (.val 1000) },
                        { host := "h2", port := some (.val 2000) }],
              password := some "secret" } ∧
    parseURL "cluster://secret@h3"
      = .ok { hosts := [{ host := "h3", port := none }],
              password := some "secret" } :=
  ⟨by decide, by decide, by decide⟩

/-- C7 (counterexample): classification of a connection string as Cluster is
not a begins-with test: `x-cluster://h1` does not begin with the
`cluster://` marker, yet `isCluster` accepts it (the source uses
`url.includes`, substring containment) and `_getRedisConfiguration`
classifies it as a cluster. -/
theorem isCluster_substring_counterexample :
    isCluster "x-cluster://h1" = true ∧
    jsStartsWith "x-cluster://h1" "cluster://" = false ∧
    getRedisConfiguration (fun _ => false) (fun u => u) "x-cluster://h1"
      = .ok (.clusterCfg { hosts := [{ host := "h1", port := none }],
                           password := none }) :=
  ⟨by decide, by decide, by decide⟩

/-- C7 (amended): the topology classification is decided solely by literal
marker matching, checked in the fixed order cluster, then sentinel, then
standalone fallback — but the cluster test is substring containment of
`cluster://` (`url.includes`), not a begins-with test; the cluster branch
always parses successfully when the marker occurs; and a string matching
neither marker is returned unmodified as a standalone URI. -/
theorem getRedisConfiguration_fixed_order {σ : Type}
    (isSentinel : String → Bool) (sentinelParse : String → σ)
    (url : String) :
    (isCluster url = jsIncludes url "cluster://") ∧
    (isCluster url = true →
        getRedisConfiguration isSentinel sentinelParse url
          = (parseURL url).map RedisConfig.clusterCfg ∧
        ∃ cfg, getRedisConfiguration isSentinel sentinelParse url
          = .ok (.clusterCfg cfg)) ∧
    (isCluster url = false → isSentinel url = true →
        getRedisConfiguration isSentinel sentinelParse url
          = .ok (.sentinelCfg (sentinelParse url))) ∧
    (isCluster url = false → isSentinel url = false →
        getRedisConfiguration isSentinel sentinelParse url
          = .ok (.standalone url)) := by
  refine ⟨rfl, ?_, ?_, ?_⟩
  · intro hc
    constructor
    · unfold getRedisConfiguration
      rw [if_pos hc]
    · obtain ⟨cfg, hcfg⟩ := parseURL_ok_of_isCluster url hc
      refine ⟨cfg, ?_⟩
      unfold getRedisConfiguration
      rw [if_pos hc, hcfg]
      rfl
  · intro hc hs
    unfold getRedisConfiguration
    rw [if_neg (by simp [hc]), if_pos hs]
  · intro hc hs
    unfold getRedisConfiguration
    rw [if_neg (by simp [hc]), if_neg (by simp [hs])]

/-- C7 witness: a standalone URI passes through unchanged; a cluster URI is
classified as a cluster and parses. -/
theorem getRedisConfiguration_fixed_order_witness :
    getRedisConfiguration (fun _ => false) (fun u => u) "redis://h:6379"
      = .ok (.standalone "redis://h:6379") ∧
    (∃ cfg, getRedisConfiguration (fun _ => false) (fun u => u)
        "cluster://h:6379" = .ok (.clusterCfg cfg)) :=
  ⟨(getRedisConfiguration_fixed_order (fun _ => false) (fun u => u)
      "redis://h:6379").2.2.2 (by decide) rfl,
   ((getRedisConfiguration_fixed_order (fun _ => false) (fun u => u)
      "cluster://h:6379").2.1 (by decide)).2⟩

/-- C8: `cleanPath` is idempotent under the `normalize-url` contract
(idempotent, never returning the empty string): applying it twice yields the
same key as applying it once, and both the falsy (empty) input and the bare
separator map to the root key `/`. -/
theorem cleanPath_idempotent (nu : String → String)
    (hid : ∀ s, nu (nu s) = nu s) (hne : ∀ s, nu s ≠ "") (p : String) :
    cleanPath nu (cleanPath nu p) = cleanPath nu p ∧
    cleanPath nu "" = pathSep ∧ cleanPath nu pathSep = pathSep :=
  ⟨cleanPath_idem_of nu hid hne p, rfl, rfl⟩

/-- C8 witness: idempotence at a concrete normalizer and path. -/
theorem cleanPath_idempotent_witness :
    cleanPath nuW (cleanPath nuW "/foo") = cleanPath nuW "/foo" ∧
    cleanPath nuW "" = pathSep ∧ cleanPath nuW pathSep = pathSep :=
  cleanPath_idempotent nuW nuW_idem nuW_ne "/foo"

/-- C9: under the serialization contract — `JSON.parse ∘ JSON.stringify`
turns each `Date` field into its ISO string, record keys are unique, the
only `Date` field is `last_activity`, and `new Date` inverts the ISO
encoding — `add` then `get` on the same path returns exactly the record that
was added (the `last_activity` timestamp stored as an ISO string is decoded
back to a timestamp); `remove` then `get` returns absent; and `get` of a key
never stored returns absent rather than an error. -/
theorem add_get_remove_roundtrip (nu : String → String)
    (stringify : Route → String) (parse : String → Route) (nd : String → Int)
    (iso : Int → String) (h : RedisHash) (p : String) (r : Route)
    (hround : parse (stringify r) = stripDates iso r)
    (hsne : stringify r ≠ "")
    (hnodup : (r.map Prod.fst).Nodup)
    (hflds : ∀ kv ∈ r, kv.1 ≠ "last_activity" → kv.2.isDate = false)
    (hla : ∀ v, List.lookup "last_activity" r = some v →
        ∃ t, v = RVal.date t ∧ nd (iso t) = t ∧ iso t ≠ "") :
    getOp nu parse nd (addOp nu stringify h p r) p = some r ∧
    getOp nu parse nd (removeOp nu h p) p = none ∧
    (List.lookup (cleanPath nu p) h = none → getOp nu parse nd h p = none) := by
  refine ⟨?_, ?_, ?_⟩
  · unfold getOp addOp
    rw [lookup_hset_self]
    have hexp : expandItem parse nd (stringify r)
        = some (expandLastActivity nd (parse (stringify r))) := by
      unfold expandItem
      rw [if_neg hsne]
    rw [show (some (stringify r)).bind (expandItem parse nd)
          = expandItem parse nd (stringify r) from rfl,
      hexp, hround, expand_strip nd iso r hnodup hflds hla]
  · unfold getOp removeOp
    rw [lookup_hdel_self]
    rfl
  · intro hnone
    unfold getOp
    rw [hnone]
    rfl

/-- C9 witness: a concrete record with a `target` field and a
`last_activity` timestamp round-trips through `add` and `get`. -/
theorem add_get_remove_roundtrip_witness :
    getOp nuW parseW ndW (addOp nuW stringifyW [] "/a" rW) "/a" = some rW ∧
    getOp nuW parseW ndW (removeOp nuW [] "/a") "/a" = none := by
  have hla : ∀ v, List.lookup "last_activity" rW = some v →
      ∃ t, v = RVal.date t ∧ ndW (isoW t) = t ∧ isoW t ≠ "" := by
    intro v hv
    have hl : List.lookup "last_activity" rW = some (RVal.date 5) := by decide
    rw [hl] at hv
    exact ⟨5, (Option.some.inj hv).symm, rfl, by decide⟩
  have hmain := add_get_remove_roundtrip nuW stringifyW parseW ndW isoW
    [] "/a" rW rfl (by decide) (by decide) (by decide) hla
  exact ⟨hmain.1, hmain.2.1⟩

/-- C10: frame property — `add` and `remove` touch only the single exact
normalized key of their argument, so for any other normalized key the result
of `get` is unchanged. -/
theorem add_remove_frame (nu : String → String) (stringify : Route → String)
    (parse : String → Route) (nd : String → Int) (h : RedisHash)
    (p q : String) (r : Route) (hpq : cleanPath nu q ≠ cleanPath nu p) :
    getOp nu parse nd (addOp nu stringify h p r) q = getOp nu parse nd h q ∧
    getOp nu parse nd (removeOp nu h p) q = getOp nu parse nd h q := by
  unfold getOp addOp removeOp
  rw [lookup_hset_ne h (cleanPath nu p) (stringify r) (cleanPath nu q) hpq,
    lookup_hdel_ne h (cleanPath nu p) (cleanPath nu q) hpq]
  exact ⟨rfl, rfl⟩

/-- C10 witness: adding or removing `/a` leaves `/b` untouched. -/
theorem add_remove_frame_witness :
    getOp nuW parseW ndW (addOp nuW stringifyW [("/b", "J")] "/a" rW) "/b"
      = getOp nuW parseW ndW [("/b", "J")] "/b" ∧
    getOp nuW parseW ndW (removeOp nuW [("/b", "J")] "/a") "/b"
      = getOp nuW parseW ndW [("/b", "J")] "/b" :=
  add_remove_frame nuW stringifyW parseW ndW [("/b", "J")] "/a" "/b" rW
    (by decide)
